import Mathlib

/-!
Verification of the ray-tracing core of the PROYECTO2-GPC renderer.

Scalar model: the program computes in IEEE-754 `f32`.  We embed `f32` values
as exact rationals extended with the special values `+inf`, `-inf` and `NaN`
(type `F` below).  Arithmetic follows the IEEE rules for these special values
(division of a nonzero finite by zero yields a signed infinity, `0/0 = NaN`,
`NaN` compares false, `min`/`max` drop a `NaN` argument as Rust's
`f32::min`/`f32::max` do).  Rounding and negative zero are not modelled: all
finite arithmetic is exact.  Every theorem below is robust to this
idealisation (the properties are structural, or are evaluated at inputs whose
`f32` computations are exact up to the value of the `1e-4` literal).

The square root (used only through `magnitude`/`normalize`) is modelled
exactly on perfect squares of rationals and by the floor approximation
`Nat.sqrt` elsewhere; no theorem depends on its value beyond its sign and its
exactness on the perfect-square inputs used by concrete witnesses.  `powf` is
modelled exactly for a finite base and a finite integer exponent (the only
case a theorem's value ever depends on) and as `NaN` elsewhere.

The repository's `color.rs`, `ray_intersect.rs`, `camera.rs` and `texture.rs`
are not part of the provided sources; the `Color`, `Intersect`, `Camera` and
`Texture` carriers are modelled from the specification and are marked as such.
All remaining definitions are direct transliterations of `cube.rs`,
`light.rs`, `main.rs` and `framebuffer.rs`.
-/

/-- Rational addition through `mkRat` (kernel-reducible, unlike the
`Rat` arithmetic instances); proved equal to `+` below. -/
def qadd (a b : ℚ) : ℚ := mkRat (a.num * b.den + b.num * a.den) (a.den * b.den)

/-- Rational negation through `mkRat`; proved equal to `-` below. -/
def qneg (a : ℚ) : ℚ := mkRat (-a.num) a.den

/-- Rational subtraction through `mkRat`; proved equal to `-` below. -/
def qsub (a b : ℚ) : ℚ := qadd a (qneg b)

/-- Rational multiplication through `mkRat`; proved equal to `*` below. -/
def qmul (a b : ℚ) : ℚ := mkRat (a.num * b.num) (a.den * b.den)

/-- Rational division through `mkRat`; proved equal to `/` below. -/
def qdiv (a b : ℚ) : ℚ :=
  if b.num < 0 then mkRat (-(a.num * b.den)) (a.den * b.num.natAbs)
  else mkRat (a.num * b.den) (a.den * b.num.natAbs)

/-- Rational power through `mkRat`; proved equal to `^` below. -/
def qpow (a : ℚ) (n : Nat) : ℚ := mkRat (a.num ^ n) (a.den ^ n)

/-- Rational absolute value through `mkRat`; proved equal to `|...|` below. -/
def qabs (a : ℚ) : ℚ := mkRat (a.num.natAbs) a.den

theorem qadd_eq (a b : ℚ) : qadd a b = a + b := by
  rw [qadd, Rat.mkRat_eq_div]
  have ha : (a.den : ℚ) ≠ 0 := by exact_mod_cast a.den_nz
  have hb : (b.den : ℚ) ≠ 0 := by exact_mod_cast b.den_nz
  conv_rhs => rw [← Rat.num_div_den a, ← Rat.num_div_den b]
  rw [div_add_div _ _ ha hb]
  push_cast
  ring_nf

theorem qneg_eq (a : ℚ) : qneg a = -a := by
  rw [qneg, Rat.mkRat_eq_div]
  conv_rhs => rw [← Rat.num_div_den a]
  push_cast
  rw [neg_div]

theorem qsub_eq (a b : ℚ) : qsub a b = a - b := by
  rw [qsub, qadd_eq, qneg_eq]
  ring

theorem qmul_eq (a b : ℚ) : qmul a b = a * b := by
  rw [qmul, Rat.mkRat_eq_div]
  have ha : (a.den : ℚ) ≠ 0 := by exact_mod_cast a.den_nz
  have hb : (b.den : ℚ) ≠ 0 := by exact_mod_cast b.den_nz
  conv_rhs => rw [← Rat.num_div_den a, ← Rat.num_div_den b]
  rw [div_mul_div_comm]
  push_cast
  ring_nf

theorem qpow_eq (a : ℚ) (n : Nat) : qpow a n = a ^ n := by
  rw [qpow, Rat.mkRat_eq_div]
  conv_rhs => rw [← Rat.num_div_den a]
  rw [div_pow]
  push_cast
  ring_nf

theorem qdiv_eq (a b : ℚ) : qdiv a b = a / b := by
  rcases eq_or_ne b 0 with rfl | hb
  · norm_num [qdiv, Rat.mkRat_eq_div]
  · have hbn : b.num ≠ 0 := Rat.num_ne_zero.mpr hb
    have ha : (a.den : ℚ) ≠ 0 := by exact_mod_cast a.den_nz
    have hbd : (b.den : ℚ) ≠ 0 := by exact_mod_cast b.den_nz
    have hnb : (b.num : ℚ) ≠ 0 := by exact_mod_cast hbn
    rw [qdiv]
    rcases lt_or_le b.num 0 with hneg | hpos
    · rw [if_pos hneg, Rat.mkRat_eq_div]
      push_cast [Int.cast_natAbs]
      rw [abs_of_neg (by exact_mod_cast hneg : (b.num:ℚ) < 0)]
      conv_rhs => rw [← Rat.num_div_den a, ← Rat.num_div_den b]
      field_simp
    · rw [if_neg (not_lt.mpr hpos), Rat.mkRat_eq_div]
      push_cast [Int.cast_natAbs]
      rw [abs_of_nonneg (by exact_mod_cast hpos : (0:ℚ) ≤ (b.num:ℚ))]
      conv_rhs => rw [← Rat.num_div_den a, ← Rat.num_div_den b]
      field_simp

theorem qabs_eq (a : ℚ) : qabs a = |a| := by
  rw [qabs, Rat.mkRat_eq_div]
  conv_rhs => rw [← Rat.num_div_den a]
  rw [abs_div]
  push_cast [Int.cast_natAbs]
  rw [abs_of_nonneg (by positivity : (0:ℚ) ≤ (a.den:ℚ))]

/-- Fuel-based integer square root (structurally recursive so that the
kernel can evaluate it, unlike `Nat.sqrt`): the largest `k` with
`k * k` at most `n`, found by counting up. -/
def isqrtAux (n : Nat) : Nat → Nat → Nat
  | 0, k => k
  | fuel + 1, k => if (k + 1) * (k + 1) ≤ n then isqrtAux n fuel (k + 1) else k

/-- Integer square root used by the `f32::sqrt` model. -/
def isqrt (n : Nat) : Nat := isqrtAux n n 0

/-- Model of an `f32` value: exact rational, a signed infinity, or `NaN`. -/
inductive F where
  | nan : F
  | ninf : F
  | pinf : F
  | fin : ℚ → F
deriving DecidableEq

/-- IEEE negation. -/
def F.neg : F → F
  | .nan => .nan
  | .ninf => .pinf
  | .pinf => .ninf
  | .fin q => .fin (qneg q)

/-- IEEE addition (infinities of opposite sign give `NaN`). -/
def F.add : F → F → F
  | .nan, _ => .nan
  | _, .nan => .nan
  | .pinf, .ninf => .nan
  | .ninf, .pinf => .nan
  | .pinf, _ => .pinf
  | _, .pinf => .pinf
  | .ninf, _ => .ninf
  | _, .ninf => .ninf
  | .fin a, .fin b => .fin (qadd a b)

/-- IEEE subtraction. -/
def F.sub (a b : F) : F := F.add a (F.neg b)

/-- IEEE multiplication (`0 * inf = NaN`). -/
def F.mul : F → F → F
  | .nan, _ => .nan
  | _, .nan => .nan
  | .pinf, .pinf => .pinf
  | .pinf, .ninf => .ninf
  | .ninf, .pinf => .ninf
  | .ninf, .ninf => .pinf
  | .pinf, .fin b => if 0 < b then .pinf else if b < 0 then .ninf else .nan
  | .fin a, .pinf => if 0 < a then .pinf else if a < 0 then .ninf else .nan
  | .ninf, .fin b => if 0 < b then .ninf else if b < 0 then .pinf else .nan
  | .fin a, .ninf => if 0 < a then .ninf else if a < 0 then .pinf else .nan
  | .fin a, .fin b => .fin (qmul a b)

/-- IEEE division (no negative zero in the model, so a zero divisor acts as
`+0`: a positive finite over zero is `+inf`, `0/0` is `NaN`). -/
def F.div : F → F → F
  | .nan, _ => .nan
  | _, .nan => .nan
  | .pinf, .pinf => .nan
  | .pinf, .ninf => .nan
  | .ninf, .pinf => .nan
  | .ninf, .ninf => .nan
  | .pinf, .fin b => if b < 0 then .ninf else .pinf
  | .ninf, .fin b => if b < 0 then .pinf else .ninf
  | .fin _, .pinf => .fin 0
  | .fin _, .ninf => .fin 0
  | .fin a, .fin b =>
      if b = 0 then (if 0 < a then .pinf else if a < 0 then .ninf else .nan)
      else .fin (qdiv a b)

/-- IEEE strict less-than as a boolean (`NaN` compares false). -/
def F.lt : F → F → Bool
  | .nan, _ => false
  | _, .nan => false
  | .ninf, .ninf => false
  | .ninf, _ => true
  | _, .ninf => false
  | .pinf, _ => false
  | .fin _, .pinf => true
  | .fin a, .fin b => decide (a < b)

/-- Rust's `f32::max`: if one argument is `NaN` the other is returned. -/
def F.fmax : F → F → F
  | .nan, y => y
  | x, .nan => x
  | x, y => if F.lt x y then y else x

/-- Rust's `f32::min`: if one argument is `NaN` the other is returned. -/
def F.fmin : F → F → F
  | .nan, y => y
  | x, .nan => x
  | x, y => if F.lt y x then y else x

/-- IEEE absolute value. -/
def F.fabs : F → F
  | .nan => .nan
  | .ninf => .pinf
  | .pinf => .pinf
  | .fin q => .fin (qabs q)

/-- Rust's `f32::powi` with a natural exponent (only the exponent 5 is used
by the program). -/
def F.powi : F → Nat → F
  | .nan, _ => .nan
  | .pinf, n => if n = 0 then .fin 1 else .pinf
  | .ninf, n => if n = 0 then .fin 1 else if n % 2 = 0 then .pinf else .ninf
  | .fin q, n => .fin (qpow q n)

/-- Model of Rust's `f32::powf`: exact for a finite base and a finite
integer-valued exponent (the only case whose value any theorem depends on;
the program exercises it with the literal exponent `2.0` and with material
specular exponents), `NaN` elsewhere. -/
def F.powf : F → F → F
  | .fin a, .fin b =>
      if b.den = 1 then
        (if b.num < 0 ∧ a = 0 then .pinf
         else if b.num < 0 then .fin (qdiv 1 (qpow a b.num.natAbs))
         else .fin (qpow a b.num.natAbs))
      else .nan
  | _, _ => .nan

/-- Model of `f32::sqrt`: exact on perfect squares of nonnegative rationals,
the `Nat.sqrt` floor approximation on other finite values (no theorem depends
on its value there), `NaN` on negative inputs. -/
def F.fsqrt : F → F
  | .nan => .nan
  | .ninf => .nan
  | .pinf => .pinf
  | .fin q =>
      if q < 0 then .nan
      else .fin (qdiv (isqrt q.num.toNat) (isqrt q.den))

instance : Neg F := ⟨F.neg⟩

instance : Add F := ⟨F.add⟩

instance : Sub F := ⟨F.sub⟩

instance : Mul F := ⟨F.mul⟩

instance : Div F := ⟨F.div⟩

instance (n : Nat) : OfNat F n := ⟨F.fin n⟩

/-- Triple of `f32` components, the `nalgebra_glm::Vec3` of the source. -/
structure Vec3F where
  x : F
  y : F
  z : F
deriving DecidableEq

/-- Componentwise vector addition. -/
def Vec3F.add (a b : Vec3F) : Vec3F := ⟨a.x + b.x, a.y + b.y, a.z + b.z⟩

/-- Componentwise vector subtraction. -/
def Vec3F.sub (a b : Vec3F) : Vec3F := ⟨a.x - b.x, a.y - b.y, a.z - b.z⟩

/-- Componentwise vector negation. -/
def Vec3F.neg (a : Vec3F) : Vec3F := ⟨-a.x, -a.y, -a.z⟩

/-- Scalar multiplication of a vector. -/
def Vec3F.smul (a : Vec3F) (t : F) : Vec3F := ⟨a.x * t, a.y * t, a.z * t⟩

/-- Componentwise division of a vector by a scalar. -/
def Vec3F.divs (a : Vec3F) (t : F) : Vec3F := ⟨a.x / t, a.y / t, a.z / t⟩

/-- Dot product, summed left to right as the library evaluates it. -/
def Vec3F.dot (a b : Vec3F) : F := a.x * b.x + a.y * b.y + a.z * b.z

/-- Euclidean magnitude, `nalgebra_glm`'s `magnitude`. -/
def Vec3F.magnitude (a : Vec3F) : F := F.fsqrt (Vec3F.dot a a)

/-- Unit vector in the direction of `a`, `nalgebra_glm`'s `normalize`. -/
def Vec3F.normalize (a : Vec3F) : Vec3F := Vec3F.divs a (Vec3F.magnitude a)

/-- Modelled from the spec: the `Color` type of the missing `color.rs` —
an RGB triple kept in floating point while blending, with per-channel
scaling, additive combination and linear interpolation; saturation to
`[0,255]` happens only at packing, which no claim touches. -/
structure Color where
  r : F
  g : F
  b : F
deriving DecidableEq

/-- Modelled from the spec: `Color::new` on 8-bit-range channel values. -/
def Color.new (r g b : ℚ) : Color := ⟨F.fin r, F.fin g, F.fin b⟩

/-- Modelled from the spec: per-channel intensity scaling (`Color::scale`). -/
def Color.scale (c : Color) (k : F) : Color := ⟨c.r * k, c.g * k, c.b * k⟩

/-- Modelled from the spec: per-channel scaling by a scalar, the `Color * f32`
operator used for the light-intensity factor. -/
def Color.mulF (c : Color) (k : F) : Color := ⟨c.r * k, c.g * k, c.b * k⟩

/-- Modelled from the spec: additive combination of colors (`Color + Color`),
unsaturated while blending. -/
def Color.add (a b : Color) : Color := ⟨a.r + b.r, a.g + b.g, a.b + b.b⟩

/-- Modelled from the spec: linear interpolation from `a` toward `b` by `t`
(`lerp(A,B,0) = A`, `lerp(A,B,1) = B`). -/
def Color.lerp (a b : Color) (t : F) : Color :=
  ⟨a.r + (b.r - a.r) * t, a.g + (b.g - a.g) * t, a.b + (b.b - a.b) * t⟩

/-- The `Material` of `material.rs`: two-component albedo, specular exponent,
transparency, reflectivity, diffuse base color and fresnel tint. -/
structure Material where
  albedo : F × F
  specular : F
  transparency : F
  reflectivity : F
  diffuse : Color
  fresnel_color : Color
deriving DecidableEq

/-- Constructor `Material::new` of `material.rs`. -/
def Material.new (albedo : F × F) (specular transparency reflectivity : F)
    (diffuse fresnel_color : Color) : Material :=
  ⟨albedo, specular, transparency, reflectivity, diffuse, fresnel_color⟩

/-- Modelled from the spec: the `Intersect` record of the missing
`ray_intersect.rs` — hit flag, hit point, surface normal, distance along the
ray, and the material in effect at the hit. -/
structure Intersect where
  is_intersecting : Bool
  point : Vec3F
  normal : Vec3F
  distance : F
  material : Material
deriving DecidableEq

/-- Modelled from the spec: the empty non-hit sentinel (flag `false`,
distance `+inf`-like; the remaining fields are inert defaults). -/
def Intersect.empty : Intersect :=
  ⟨false, ⟨0, 0, 0⟩, ⟨0, 0, 0⟩, F.pinf,
   Material.new (0, 0) 0 0 0 (Color.new 0 0 0) (Color.new 0 0 0)⟩

/-- Modelled from the spec: `Intersect::new` builds a hit record. -/
def Intersect.new (point normal : Vec3F) (distance : F) (material : Material) :
    Intersect :=
  ⟨true, point, normal, distance, material⟩

/-- The `Light` of `light.rs`: position, color, scalar intensity. -/
structure Light where
  position : Vec3F
  color : Color
  intensity : F
deriving DecidableEq

/-- Modelled from the spec: the camera of the missing `camera.rs`; the
compositor consumes only its `eye` position. -/
structure Camera where
  eye : Vec3F
deriving DecidableEq

/-- Modelled from the spec: a texture is its pure lookup contract
`sample(u, v) -> Color`. -/
def Texture : Type := F → F → Color

/-- The `Cube` scene primitive of `cube.rs`. -/
structure Cube where
  min : Vec3F
  max : Vec3F
  material : Material
  top_texture : Texture
  side_texture : Texture
  bottom_texture : Texture

/-- The `1e-4` epsilon used for face classification in `cube.rs`. -/
def EPS : F := F.fin (mkRat 1 10000)

/-- One slab axis of `Cube::ray_intersect`: the two plane parameters, swapped
so the first is not greater than the second (lines 20-25 of `cube.rs`). -/
def tpair (mn mx o d : F) : F × F :=
  let a := (mn - o) / d
  let b := (mx - o) / d
  if F.lt b a then (b, a) else (a, b)

/-- The normal routine `Cube::calculate_normal` (lines 108-123 of `cube.rs`):
tests `min.x`, `max.x`, `min.y`, `max.y`, `min.z` in order, each within the
epsilon, defaulting to the `+z` face. -/
def calculateNormal (c : Cube) (p : Vec3F) : Vec3F :=
  if F.lt (F.fabs (p.x - c.min.x)) EPS then ⟨-1, 0, 0⟩
  else if F.lt (F.fabs (p.x - c.max.x)) EPS then ⟨1, 0, 0⟩
  else if F.lt (F.fabs (p.y - c.min.y)) EPS then ⟨0, -1, 0⟩
  else if F.lt (F.fabs (p.y - c.max.y)) EPS then ⟨0, 1, 0⟩
  else if F.lt (F.fabs (p.z - c.min.z)) EPS then ⟨0, 0, -1⟩
  else ⟨0, 0, 1⟩

/-- The first early-miss test of `Cube::ray_intersect` (line 34 of
`cube.rs`): `(t_min > t_y_max) || (t_y_min > t_max)` after the x and y
slabs. -/
def slabMissXY (c : Cube) (ray_origin ray_direction : Vec3F) : Bool :=
  let tx := tpair c.min.x c.max.x ray_origin.x ray_direction.x
  let ty := tpair c.min.y c.max.y ray_origin.y ray_direction.y
  F.lt ty.2 tx.1 || F.lt tx.2 ty.1

/-- The running entry parameter after merging the x and y slabs (lines 38-40
of `cube.rs`): `t_min` raised to `t_y_min` when the latter is larger. -/
def tAfterXY (c : Cube) (ray_origin ray_direction : Vec3F) : F :=
  let tx := tpair c.min.x c.max.x ray_origin.x ray_direction.x
  let ty := tpair c.min.y c.max.y ray_origin.y ray_direction.y
  if F.lt tx.1 ty.1 then ty.1 else tx.1

/-- The running exit parameter after merging the x and y slabs (lines 42-44
of `cube.rs`): `t_max` lowered to `t_y_max` when the latter is smaller. -/
def tExitXY (c : Cube) (ray_origin ray_direction : Vec3F) : F :=
  let tx := tpair c.min.x c.max.x ray_origin.x ray_direction.x
  let ty := tpair c.min.y c.max.y ray_origin.y ray_direction.y
  if F.lt ty.2 tx.2 then ty.2 else tx.2

/-- The second early-miss test of `Cube::ray_intersect` (line 53 of
`cube.rs`): `(t_min > t_z_max) || (t_z_min > t_max)`. -/
def slabMissZ (c : Cube) (ray_origin ray_direction : Vec3F) : Bool :=
  let tz := tpair c.min.z c.max.z ray_origin.z ray_direction.z
  F.lt tz.2 (tAfterXY c ray_origin ray_direction) ||
    F.lt (tExitXY c ray_origin ray_direction) tz.1

/-- The entry parameter of the slab method after clipping against all three
axes in the order x, y, z, exactly as `Cube::ray_intersect` computes its
final `t_min` (lines 57-59 of `cube.rs`: the running maximum of the
per-axis lower parameters). -/
def tEnter (c : Cube) (ray_origin ray_direction : Vec3F) : F :=
  let tz := tpair c.min.z c.max.z ray_origin.z ray_direction.z
  if F.lt (tAfterXY c ray_origin ray_direction) tz.1 then tz.1
  else tAfterXY c ray_origin ray_direction

/-- `Cube::ray_intersect` (lines 18-103 of `cube.rs`): slab clipping in the
axis order x, y, z with early misses, rejection of a negative entry
parameter, per-face texture lookup overriding the material's diffuse color,
and the face normal from `calculate_normal`. -/
def rayIntersect (c : Cube) (ray_origin ray_direction : Vec3F) : Intersect :=
  if slabMissXY c ray_origin ray_direction then Intersect.empty
  else if slabMissZ c ray_origin ray_direction then Intersect.empty
  else if F.lt (tEnter c ray_origin ray_direction) 0 then Intersect.empty
  else
    let p := Vec3F.add ray_origin (Vec3F.smul ray_direction (tEnter c ray_origin ray_direction))
    let color :=
      if F.lt (F.fabs (p.y - c.max.y)) EPS then
        c.top_texture ((p.x - c.min.x) / (c.max.x - c.min.x))
          ((p.z - c.min.z) / (c.max.z - c.min.z))
      else if F.lt (F.fabs (p.y - c.min.y)) EPS then
        c.bottom_texture ((p.x - c.min.x) / (c.max.x - c.min.x))
          ((p.z - c.min.z) / (c.max.z - c.min.z))
      else if F.lt (F.fabs (p.x - c.min.x)) EPS || F.lt (F.fabs (p.x - c.max.x)) EPS then
        c.side_texture ((p.z - c.min.z) / (c.max.z - c.min.z))
          ((p.y - c.min.y) / (c.max.y - c.min.y))
      else
        c.side_texture ((p.x - c.min.x) / (c.max.x - c.min.x))
          ((p.y - c.min.y) / (c.max.y - c.min.y))
    let material := Material.new c.material.albedo c.material.specular
      c.material.transparency c.material.reflectivity color c.material.fresnel_color
    Intersect.new p (calculateNormal c p) (tEnter c ray_origin ray_direction) material

/-- The reflection helper `reflect` of `light.rs`:
`incident - 2 * dot(incident, normal) * normal`. -/
def reflect (incident normal : Vec3F) : Vec3F :=
  Vec3F.sub incident (Vec3F.smul normal (F.mul 2 (Vec3F.dot incident normal)))

/-- The `SHADOW_BIAS` constant of `light.rs` (`1e-4`). -/
def SHADOW_BIAS : F := F.fin (mkRat 1 10000)

/-- The occluder scan of `cast_shadow` (`light.rs` lines 44-54): the first
object whose hit distance is strictly below the light distance sets the
intensity `1 - min((d / L)^2, 1)` and breaks out of the scan; with no such
object the intensity stays `0`. -/
def shadowLoop (objects : List Cube) (origin dir : Vec3F) (light_distance : F) : F :=
  match objects with
  | [] => 0
  | o :: rest =>
      let si := rayIntersect o origin dir
      if si.is_intersecting && F.lt si.distance light_distance then
        F.sub 1 (F.fmin (F.powf (F.div si.distance light_distance) 2) 1)
      else shadowLoop rest origin dir light_distance

/-- `cast_shadow` of `light.rs` (lines 29-56): shadow-ray origin offset by
`SHADOW_BIAS` along the normal (against it when the light is on the back
side), then the linear occluder scan. -/
def castShadow (i : Intersect) (light : Light) (objects : List Cube) : F :=
  let light_dir := Vec3F.normalize (Vec3F.sub light.position i.point)
  let light_distance := Vec3F.magnitude (Vec3F.sub light.position i.point)
  let offset_normal := Vec3F.smul i.normal SHADOW_BIAS
  let shadow_ray_origin :=
    if F.lt (Vec3F.dot light_dir i.normal) 0 then
      Vec3F.sub i.point offset_normal
    else
      Vec3F.add i.point offset_normal
  shadowLoop objects shadow_ray_origin light_dir light_distance

/-- The per-light body of `calculate_lighting` (`light.rs` lines 70-84):
synthetic probe intersection, shadow attenuation, diffuse and specular
terms added onto the accumulator. -/
def lightingStep (point normal view_dir : Vec3F) (material_diffuse : Color)
    (material_specular : F) (material_albedo : F × F) (objects : List Cube)
    (acc : Color) (light : Light) : Color :=
  let probe := Intersect.new point normal 0
    (Material.new (1, 0) (F.fin (mkRat 1 2)) 0 0 (Color.new 255 255 255) (Color.new 255 255 255))
  let shadow_intensity := castShadow probe light objects
  let light_intensity := F.mul light.intensity (F.sub 1 shadow_intensity)
  let light_dir := Vec3F.normalize (Vec3F.sub light.position point)
  let reflect_dir := reflect (Vec3F.neg light_dir) normal
  let diffuse_intensity := F.fmax (Vec3F.dot normal light_dir) 0
  let diffuse := Color.mulF
    (Color.scale material_diffuse (F.mul diffuse_intensity material_albedo.1))
    light_intensity
  let specular_intensity := F.powf (F.fmax (Vec3F.dot reflect_dir view_dir) 0) material_specular
  let specular := Color.mulF
    (Color.scale (Color.new 255 255 255) (F.mul specular_intensity material_albedo.2))
    light_intensity
  Color.add (Color.add acc diffuse) specular

/-- `calculate_lighting` of `light.rs` (lines 58-87): fold of the per-light
body over the light list, starting from black. -/
def calculateLighting (point normal view_dir : Vec3F) (material_diffuse : Color)
    (material_specular : F) (material_albedo : F × F) (lights : List Light)
    (objects : List Cube) : Color :=
  lights.foldl
    (lightingStep point normal view_dir material_diffuse material_specular material_albedo objects)
    (Color.new 0 0 0)

/-- `fresnel_effect` of `main.rs` (lines 26-29): the Schlick approximation
`f0 + (1 - f0) * (1 - cos_theta)^5` with `cos_theta = max(0, dot(n, v))`. -/
def fresnelEffect (normal view_dir : Vec3F) (f0 : F) : F :=
  let cos_theta := F.fmax (Vec3F.dot normal view_dir) 0
  F.add f0 (F.mul (F.sub 1 f0) (F.powi (F.sub 1 cos_theta) 5))

/-- One step of `cast_ray`'s nearest-hit scan (`main.rs` lines 44-50):
state is the running `(zbuffer, closest_intersect)` pair. -/
def scanStep (o d : Vec3F) (s : F × Intersect) (c : Cube) : F × Intersect :=
  let i := rayIntersect c o d
  if i.is_intersecting && F.lt i.distance s.1 then (i.distance, i) else s

/-- The nearest-hit scan of `cast_ray`: `zbuffer` starts at `+inf` and
`closest_intersect` at the empty sentinel. -/
def scanPair (objects : List Cube) (o d : Vec3F) : F × Intersect :=
  objects.foldl (scanStep o d) (F.pinf, Intersect.empty)

/-- The miss fallback of `cast_ray` (`main.rs` lines 53-67): first skybox
cube hit contributes its (texture-derived) diffuse color; if the skybox
misses too, a fixed color selected by the day/night flag. -/
def skyboxColor (skybox : List Cube) (o d : Vec3F) (is_night : Bool) : Color :=
  match skybox with
  | [] => if is_night then Color.new 10 10 30 else Color.new 63 96 188
  | c :: rest =>
      let i := rayIntersect c o d
      if i.is_intersecting then i.material.diffuse else skyboxColor rest o d is_night

/-- `cast_ray` of `main.rs` (lines 31-92): nearest-hit scan, skybox/background
fallback on miss, lighting plus Fresnel blend on hit. -/
def castRay (ray_origin ray_direction : Vec3F) (objects skybox : List Cube)
    (lights : List Light) (camera : Camera) (is_night : Bool) : Color :=
  let closest := (scanPair objects ray_origin ray_direction).2
  if closest.is_intersecting then
    let view_dir := Vec3F.normalize (Vec3F.sub camera.eye closest.point)
    let final_color := calculateLighting closest.point closest.normal view_dir
      closest.material.diffuse closest.material.specular closest.material.albedo
      lights objects
    let f0 := closest.material.reflectivity
    let fresnel := fresnelEffect closest.normal view_dir f0
    let fresnel_intensity := closest.material.reflectivity
    let reflected_color := closest.material.fresnel_color
    Color.lerp final_color reflected_color (F.mul fresnel fresnel_intensity)
  else
    skyboxColor skybox ray_origin ray_direction is_night

/-- The `Framebuffer` of `framebuffer.rs`. -/
structure Framebuffer where
  width : Nat
  height : Nat
  buffer : List Nat
  background_color : Nat
  current_color : Nat
deriving DecidableEq

/-- `Framebuffer::new`: zeroed buffer of `width * height` pixels. -/
def Framebuffer.new (width height : Nat) : Framebuffer :=
  ⟨width, height, List.replicate (width * height) 0, 0, 16777215⟩

/-- `Framebuffer::draw_pixel` (lines 29-34 of `framebuffer.rs`): write
`color` at index `y * width + x` when `x < width && y < height`, otherwise
do nothing. -/
def Framebuffer.drawPixel (fb : Framebuffer) (x y color : Nat) : Framebuffer :=
  if x < fb.width ∧ y < fb.height then
    ⟨fb.width, fb.height, fb.buffer.set (y * fb.width + x) color,
     fb.background_color, fb.current_color⟩
  else fb

/-- `Framebuffer::point` (lines 36-40 of `framebuffer.rs`): like
`draw_pixel` with the framebuffer's current color. -/
def Framebuffer.point (fb : Framebuffer) (x y : Nat) : Framebuffer :=
  if x < fb.width ∧ y < fb.height then
    ⟨fb.width, fb.height, fb.buffer.set (y * fb.width + x) fb.current_color,
     fb.background_color, fb.current_color⟩
  else fb

/-- Constant white texture used by concrete test scenes. -/
def whiteTexture : Texture := fun _ _ => Color.new 255 255 255

/-- The axis-aligned unit cube `[0,1]^3` with an inert white material. -/
def unitCube : Cube :=
  ⟨⟨0, 0, 0⟩, ⟨1, 1, 1⟩,
   Material.new (1, 0) 0 0 0 (Color.new 255 255 255) (Color.new 255 255 255),
   whiteTexture, whiteTexture, whiteTexture⟩

/-- C1: for the ray with origin `(0.5, 0.5, 5)` and direction `(0, 0, -1)`
cast against the axis-aligned cube with corners `(0,0,0)` and `(1,1,1)`,
`ray_intersect` returns a hit whose point is `(0.5, 0.5, 1)`, whose normal
is `(0, 0, 1)`, and whose distance is `4`. -/
theorem rayIntersect_unit_cube_front_hit :
    (rayIntersect unitCube ⟨F.fin (mkRat 1 2), F.fin (mkRat 1 2), 5⟩
        ⟨0, 0, -1⟩).is_intersecting = true ∧
    (rayIntersect unitCube ⟨F.fin (mkRat 1 2), F.fin (mkRat 1 2), 5⟩
        ⟨0, 0, -1⟩).point = ⟨F.fin (mkRat 1 2), F.fin (mkRat 1 2), 1⟩ ∧
    (rayIntersect unitCube ⟨F.fin (mkRat 1 2), F.fin (mkRat 1 2), 5⟩
        ⟨0, 0, -1⟩).normal = ⟨0, 0, 1⟩ ∧
    (rayIntersect unitCube ⟨F.fin (mkRat 1 2), F.fin (mkRat 1 2), 5⟩
        ⟨0, 0, -1⟩).distance = 4 := by
  decide

/-- C2: for every cube and ray, if the entry parameter obtained by clipping
against all three slab axes is negative, `ray_intersect` returns the empty
sentinel (in the non-degenerate branches the code checks exactly this
condition; in the early-miss branches it returns empty regardless). -/
theorem rayIntersect_neg_tEnter_empty (c : Cube) (o d : Vec3F)
    (h : F.lt (tEnter c o d) 0 = true) :
    rayIntersect c o d = Intersect.empty := by
  simp only [rayIntersect]
  split
  · rfl
  · split
    · rfl
    · rfl

/-- Witness for C2: a ray starting inside the unit cube has a negative entry
parameter and is reported as a miss. -/
theorem rayIntersect_neg_tEnter_empty_witness :
    F.lt (tEnter unitCube ⟨F.fin (mkRat 1 2), F.fin (mkRat 1 2), F.fin (mkRat 1 2)⟩
        ⟨0, 0, -1⟩) 0 = true ∧
    rayIntersect unitCube ⟨F.fin (mkRat 1 2), F.fin (mkRat 1 2), F.fin (mkRat 1 2)⟩
        ⟨0, 0, -1⟩ = Intersect.empty :=
  ⟨by decide,
   rayIntersect_neg_tEnter_empty unitCube
     ⟨F.fin (mkRat 1 2), F.fin (mkRat 1 2), F.fin (mkRat 1 2)⟩ ⟨0, 0, -1⟩ (by decide)⟩

/-- C6: the normal routine is exhaustive (it always yields one of the six
axis normals), and at a point within epsilon of only the top face plane
(`y` close to `max.y`, while both `x` boundaries and the bottom `y` boundary
are at least epsilon away) it yields `(0, 1, 0)` and never a side normal:
the tests run in the order `min.x`, `max.x`, `min.y`, `max.y`, `min.z`,
else `max.z`, first match winning. -/
theorem calculateNormal_top_face (c : Cube) (p : Vec3F)
    (hx1 : F.lt (F.fabs (p.x - c.min.x)) EPS = false)
    (hx2 : F.lt (F.fabs (p.x - c.max.x)) EPS = false)
    (hy1 : F.lt (F.fabs (p.y - c.min.y)) EPS = false)
    (hy2 : F.lt (F.fabs (p.y - c.max.y)) EPS = true) :
    calculateNormal c p = ⟨0, 1, 0⟩ ∧
    ∀ (c' : Cube) (p' : Vec3F),
      calculateNormal c' p' ∈
        [(⟨-1, 0, 0⟩ : Vec3F), ⟨1, 0, 0⟩, ⟨0, -1, 0⟩, ⟨0, 1, 0⟩, ⟨0, 0, -1⟩, ⟨0, 0, 1⟩] := by
  constructor
  · simp only [calculateNormal, hx1, hx2, hy1, hy2, Bool.false_eq_true, if_false, if_true]
  · intro c' p'
    simp only [calculateNormal]
    split_ifs <;> simp

/-- Witness for C6: the point `(0.5, 1, 0.5)` on the top face of the unit
cube gets the upward normal. -/
theorem calculateNormal_top_face_witness :
    calculateNormal unitCube ⟨F.fin (mkRat 1 2), 1, F.fin (mkRat 1 2)⟩ = ⟨0, 1, 0⟩ :=
  (calculateNormal_top_face unitCube ⟨F.fin (mkRat 1 2), 1, F.fin (mkRat 1 2)⟩
    (by decide) (by decide) (by decide) (by decide)).1

/-- C7: `cast_shadow` offsets the shadow-ray origin from the hit point by
`1e-4` times the surface normal: added when the dot product of the
(normalized) light direction with the normal is not negative, subtracted
when that dot product is negative. -/
theorem castShadow_bias_direction (i : Intersect) (light : Light) (objects : List Cube) :
    (F.lt (Vec3F.dot (Vec3F.normalize (Vec3F.sub light.position i.point)) i.normal) 0 = false →
      castShadow i light objects =
        shadowLoop objects (Vec3F.add i.point (Vec3F.smul i.normal SHADOW_BIAS))
          (Vec3F.normalize (Vec3F.sub light.position i.point))
          (Vec3F.magnitude (Vec3F.sub light.position i.point))) ∧
    (F.lt (Vec3F.dot (Vec3F.normalize (Vec3F.sub light.position i.point)) i.normal) 0 = true →
      castShadow i light objects =
        shadowLoop objects (Vec3F.sub i.point (Vec3F.smul i.normal SHADOW_BIAS))
          (Vec3F.normalize (Vec3F.sub light.position i.point))
          (Vec3F.magnitude (Vec3F.sub light.position i.point))) := by
  constructor
  · intro h
    simp only [castShadow, h, Bool.false_eq_true, if_false]
  · intro h
    simp only [castShadow, h, if_true]

/-- Witness for C7: a light straight above the top face of the unit cube has
a nonnegative direction-normal dot product, so the bias is added. -/
theorem castShadow_bias_direction_witness :
    castShadow (Intersect.new ⟨F.fin (mkRat 1 2), 1, F.fin (mkRat 1 2)⟩ ⟨0, 1, 0⟩ 4
        (Material.new (1, 0) 0 0 0 (Color.new 255 255 255) (Color.new 255 255 255)))
      ⟨⟨F.fin (mkRat 1 2), 5, F.fin (mkRat 1 2)⟩, Color.new 255 255 255, 1⟩ [] =
      shadowLoop []
        (Vec3F.add ⟨F.fin (mkRat 1 2), 1, F.fin (mkRat 1 2)⟩
          (Vec3F.smul ⟨0, 1, 0⟩ SHADOW_BIAS))
        (Vec3F.normalize (Vec3F.sub ⟨F.fin (mkRat 1 2), 5, F.fin (mkRat 1 2)⟩
          ⟨F.fin (mkRat 1 2), 1, F.fin (mkRat 1 2)⟩))
        (Vec3F.magnitude (Vec3F.sub ⟨F.fin (mkRat 1 2), 5, F.fin (mkRat 1 2)⟩
          ⟨F.fin (mkRat 1 2), 1, F.fin (mkRat 1 2)⟩)) :=
  (castShadow_bias_direction
    (Intersect.new ⟨F.fin (mkRat 1 2), 1, F.fin (mkRat 1 2)⟩ ⟨0, 1, 0⟩ 4
      (Material.new (1, 0) 0 0 0 (Color.new 255 255 255) (Color.new 255 255 255)))
    ⟨⟨F.fin (mkRat 1 2), 5, F.fin (mkRat 1 2)⟩, Color.new 255 255 255, 1⟩ []).1 (by decide)

/-- C9: the pixel writes `draw_pixel` and `point` leave the whole
framebuffer unchanged (and signal no error) when `x` or `y` is out of
range; for in-range coordinates they write exactly the pixel at index
`y * width + x` and leave every other pixel unchanged. -/
theorem framebuffer_write_spec (fb : Framebuffer) (x y color : Nat)
    (hlen : fb.buffer.length = fb.width * fb.height) :
    ((fb.width ≤ x ∨ fb.height ≤ y) →
       fb.drawPixel x y color = fb ∧ fb.point x y = fb) ∧
    (x < fb.width → y < fb.height →
       (fb.drawPixel x y color).buffer[y * fb.width + x]? = some color ∧
       (fb.point x y).buffer[y * fb.width + x]? = some fb.current_color ∧
       ∀ j, j ≠ y * fb.width + x →
         (fb.drawPixel x y color).buffer[j]? = fb.buffer[j]? ∧
         (fb.point x y).buffer[j]? = fb.buffer[j]?) := by
  have hidx : ∀ (hx : x < fb.width) (hy : y < fb.height),
      y * fb.width + x < fb.buffer.length := by
    intro hx hy
    rw [hlen]
    calc y * fb.width + x < y * fb.width + fb.width := by omega
    _ = (y + 1) * fb.width := by ring
    _ ≤ fb.width * fb.height := by
        rw [mul_comm fb.width fb.height]
        exact Nat.mul_le_mul_right _ (by omega)
  constructor
  · intro hout
    have hcond : ¬(x < fb.width ∧ y < fb.height) := by omega
    constructor
    · rw [Framebuffer.drawPixel, if_neg hcond]
    · rw [Framebuffer.point, if_neg hcond]
  · intro hx hy
    have hcond : x < fb.width ∧ y < fb.height := ⟨hx, hy⟩
    refine ⟨?_, ?_, ?_⟩
    · rw [Framebuffer.drawPixel, if_pos hcond]
      exact List.getElem?_set_self (hidx hx hy)
    · rw [Framebuffer.point, if_pos hcond]
      exact List.getElem?_set_self (hidx hx hy)
    · intro j hj
      constructor
      · rw [Framebuffer.drawPixel, if_pos hcond]
        exact List.getElem?_set_ne (fun e => hj e.symm)
      · rw [Framebuffer.point, if_pos hcond]
        exact List.getElem?_set_ne (fun e => hj e.symm)

/-- Witness for C9: on a 2-by-2 framebuffer, writing out of range at
`(2, 0)` is a no-op, and writing in range at `(1, 1)` hits index 3. -/
theorem framebuffer_write_spec_witness :
    ((Framebuffer.new 2 2).drawPixel 2 0 7 = Framebuffer.new 2 2) ∧
    ((Framebuffer.new 2 2).drawPixel 1 1 7).buffer[3]? = some 7 :=
  ⟨((framebuffer_write_spec (Framebuffer.new 2 2) 2 0 7 (by decide)).1
      (Or.inl (by decide))).1,
   ((framebuffer_write_spec (Framebuffer.new 2 2) 1 1 7 (by decide)).2
      (by decide) (by decide)).1⟩

/-- Auxiliary for C10: the per-light lighting body reads only the light's
position and intensity, never its color. -/
theorem lightingStep_congr (point normal view_dir : Vec3F) (md : Color) (ms : F)
    (alb : F × F) (objects : List Cube) (acc : Color) (a b : Light)
    (h1 : a.position = b.position) (h2 : a.intensity = b.intensity) :
    lightingStep point normal view_dir md ms alb objects acc a =
    lightingStep point normal view_dir md ms alb objects acc b := by
  simp only [lightingStep, castShadow, h1, h2]

/-- C10: `calculate_lighting` is independent of every light's color field:
two light lists agreeing pointwise on position and intensity produce the
same color for every point, normal, view direction, material and object
list. -/
theorem calculateLighting_ignores_light_color (point normal view_dir : Vec3F)
    (md : Color) (ms : F) (alb : F × F) (objects : List Cube)
    (lights1 lights2 : List Light)
    (h : List.Forall₂ (fun a b => a.position = b.position ∧ a.intensity = b.intensity)
      lights1 lights2) :
    calculateLighting point normal view_dir md ms alb lights1 objects =
    calculateLighting point normal view_dir md ms alb lights2 objects := by
  rw [calculateLighting, calculateLighting]
  generalize (Color.new 0 0 0) = acc
  induction h generalizing acc with
  | nil => rfl
  | cons ha _ ih =>
      rw [List.foldl_cons, List.foldl_cons,
        lightingStep_congr point normal view_dir md ms alb objects acc _ _ ha.1 ha.2]
      exact ih _

/-- Witness for C10: one light list with a white light and one with a red
light at the same position and intensity produce the same output. -/
theorem calculateLighting_ignores_light_color_witness :
    calculateLighting ⟨0, 0, 0⟩ ⟨0, 1, 0⟩ ⟨0, 1, 0⟩ (Color.new 255 0 0) 2 (1, 0)
      [⟨⟨0, 5, 0⟩, Color.new 255 255 255, 1⟩] [] =
    calculateLighting ⟨0, 0, 0⟩ ⟨0, 1, 0⟩ ⟨0, 1, 0⟩ (Color.new 255 0 0) 2 (1, 0)
      [⟨⟨0, 5, 0⟩, Color.new 255 0 0, 1⟩] [] :=
  calculateLighting_ignores_light_color ⟨0, 0, 0⟩ ⟨0, 1, 0⟩ ⟨0, 1, 0⟩
    (Color.new 255 0 0) 2 (1, 0) [] _ _
    (List.Forall₂.cons ⟨rfl, rfl⟩ List.Forall₂.nil)

/-- The shadow-ray origin computed inside `cast_shadow`: the hit point
offset by `SHADOW_BIAS` along the normal, against it when the light is on
the back side. -/
def shadowRayOrigin (i : Intersect) (light : Light) : Vec3F :=
  if F.lt (Vec3F.dot (Vec3F.normalize (Vec3F.sub light.position i.point)) i.normal) 0 then
    Vec3F.sub i.point (Vec3F.smul i.normal SHADOW_BIAS)
  else
    Vec3F.add i.point (Vec3F.smul i.normal SHADOW_BIAS)

/-- `cast_shadow` is the occluder scan started from the biased origin. -/
theorem castShadow_eq_shadowLoop (i : Intersect) (light : Light) (objects : List Cube) :
    castShadow i light objects =
      shadowLoop objects (shadowRayOrigin i light)
        (Vec3F.normalize (Vec3F.sub light.position i.point))
        (Vec3F.magnitude (Vec3F.sub light.position i.point)) := rfl

/-- Every intersection record produced by `ray_intersect` has a distance
that does not compare below zero: misses carry the `+inf` sentinel and hits
survive the `t_min < 0` rejection. -/
theorem rayIntersect_distance_not_neg (c : Cube) (o d : Vec3F) :
    F.lt (rayIntersect c o d).distance 0 = false := by
  simp only [rayIntersect]
  split
  · rfl
  · split
    · rfl
    · split
      · rfl
      · rename_i hne
        simp only [Intersect.new]
        exact Bool.eq_false_iff.mpr hne

/-- The intensity assigned for an occluder at non-negative distance `dv`
strictly below the light distance `L` is a rational in `(0, 1]`. -/
theorem occluder_intensity (dv L : F) (hd : F.lt dv 0 = false)
    (hg : F.lt dv L = true) :
    ∃ q : ℚ, F.sub 1 (F.fmin (F.powf (F.div dv L) 2) 1) = F.fin q ∧ 0 < q ∧ q ≤ 1 := by
  cases dv with
  | nan => exact absurd hg (by simp [F.lt])
  | ninf => exact absurd hd (by decide)
  | pinf => cases L <;> simp [F.lt] at hg
  | fin a =>
      have ha : 0 ≤ a := by
        rw [show F.lt (F.fin a) 0 = decide (a < 0) from rfl] at hd
        simpa using hd
      cases L with
      | nan => exact absurd hg (by simp [F.lt])
      | ninf => exact absurd hg (by simp [F.lt])
      | pinf =>
          refine ⟨1, ?_, one_pos, le_refl 1⟩
          show F.sub 1 (F.fmin (F.powf (F.fin 0) 2) 1) = F.fin 1
          decide
      | fin b =>
          have hab : a < b := by
            rw [show F.lt (F.fin a) (F.fin b) = decide (a < b) from rfl] at hg
            exact of_decide_eq_true hg
          have hb : 0 < b := lt_of_le_of_lt ha hab
          have hb0 : b ≠ 0 := ne_of_gt hb
          have hdiv : F.div (F.fin a) (F.fin b) = F.fin (qdiv a b) := by
            simp only [F.div, if_neg hb0]
          have hr0 : 0 ≤ qdiv a b := by
            rw [qdiv_eq]
            positivity
          have hr1 : qdiv a b < 1 := by
            rw [qdiv_eq]
            exact (div_lt_one hb).mpr hab
          have hs0 : 0 ≤ qpow (qdiv a b) 2 := by
            rw [qpow_eq]
            positivity
          have hs1 : qpow (qdiv a b) 2 < 1 := by
            rw [qpow_eq]
            exact pow_lt_one₀ hr0 hr1 (by norm_num)
          have hpow : F.powf (F.fin (qdiv a b)) 2 = F.fin (qpow (qdiv a b) 2) := by
            show F.powf (F.fin (qdiv a b)) (F.fin 2) = F.fin (qpow (qdiv a b) 2)
            simp only [F.powf]
            norm_num
          have hmin : F.fmin (F.fin (qpow (qdiv a b) 2)) 1 = F.fin (qpow (qdiv a b) 2) := by
            show F.fmin (F.fin (qpow (qdiv a b) 2)) (F.fin 1) = F.fin (qpow (qdiv a b) 2)
            simp only [F.fmin]
            rw [show F.lt (F.fin 1) (F.fin (qpow (qdiv a b) 2)) =
              decide ((1:ℚ) < qpow (qdiv a b) 2) from rfl]
            rw [decide_eq_false (not_lt.mpr (le_of_lt hs1))]
            rfl
          refine ⟨qsub 1 (qpow (qdiv a b) 2), ?_, ?_, ?_⟩
          · rw [hdiv, hpow, hmin]
            rfl
          · rw [qsub_eq]
            linarith
          · rw [qsub_eq]
            linarith

/-- The occluder guard of the `cast_shadow` scan: the object's hit flag is
set and its hit distance compares strictly below the light distance. -/
def occludesB (origin dir : Vec3F) (L : F) (c : Cube) : Bool :=
  (rayIntersect c origin dir).is_intersecting &&
    F.lt (rayIntersect c origin dir).distance L

/-- With no occluder along the shadow ray the scan leaves the intensity at
zero. -/
theorem shadowLoop_no_occluder (objects : List Cube) (origin dir : Vec3F) (L : F)
    (h : ∀ c ∈ objects, occludesB origin dir L c = false) :
    shadowLoop objects origin dir L = 0 := by
  induction objects with
  | nil => rfl
  | cons o rest ih =>
      have ho := h o (List.mem_cons_self o rest)
      simp only [occludesB] at ho
      simp only [shadowLoop, ho, Bool.false_eq_true, if_false]
      exact ih fun c hc => h c (List.mem_cons_of_mem o hc)

/-- The scan stops at the first occluder: everything before it misses or is
too far, the occluder sets the intensity `1 - min((d/L)^2, 1)`, and the
objects after it are never consulted. -/
theorem shadowLoop_first_occluder (pre post : List Cube) (occ : Cube)
    (origin dir : Vec3F) (L : F)
    (hpre : ∀ c ∈ pre, occludesB origin dir L c = false)
    (hocc : occludesB origin dir L occ = true) :
    shadowLoop (pre ++ occ :: post) origin dir L =
      F.sub 1 (F.fmin (F.powf (F.div (rayIntersect occ origin dir).distance L) 2) 1) := by
  induction pre with
  | nil =>
      simp only [occludesB] at hocc
      simp only [List.nil_append, shadowLoop, hocc, if_true]
  | cons c rest ih =>
      have hc := hpre c (List.mem_cons_self c rest)
      simp only [occludesB] at hc
      simp only [List.cons_append, shadowLoop, hc, Bool.false_eq_true, if_false]
      exact ih fun x hx => hpre x (List.mem_cons_of_mem c hx)

/-- The scan's result is always a rational in `[0, 1]`. -/
theorem shadowLoop_bounds (objects : List Cube) (origin dir : Vec3F) (L : F) :
    ∃ q : ℚ, shadowLoop objects origin dir L = F.fin q ∧ 0 ≤ q ∧ q ≤ 1 := by
  induction objects with
  | nil => exact ⟨0, rfl, le_refl 0, by norm_num⟩
  | cons o rest ih =>
      by_cases hg : ((rayIntersect o origin dir).is_intersecting &&
          F.lt (rayIntersect o origin dir).distance L) = true
      · have hsplit := Bool.and_eq_true_iff.mp hg
        obtain ⟨q, heq, hq0, hq1⟩ := occluder_intensity
          (rayIntersect o origin dir).distance L
          (rayIntersect_distance_not_neg o origin dir) hsplit.2
        refine ⟨q, ?_, le_of_lt hq0, hq1⟩
        simp only [shadowLoop, hg, if_true]
        exact heq
      · have hg' : ((rayIntersect o origin dir).is_intersecting &&
            F.lt (rayIntersect o origin dir).distance L) = false :=
          Bool.eq_false_iff.mpr hg
        simp only [shadowLoop, hg', Bool.false_eq_true, if_false]
        exact ih

/-- With at least one occluder along the shadow ray the result is a
rational in `(0, 1]`. -/
theorem shadowLoop_pos (objects : List Cube) (origin dir : Vec3F) (L : F)
    (h : ∃ c ∈ objects, occludesB origin dir L c = true) :
    ∃ q : ℚ, shadowLoop objects origin dir L = F.fin q ∧ 0 < q ∧ q ≤ 1 := by
  induction objects with
  | nil => simp at h
  | cons o rest ih =>
      by_cases hg : ((rayIntersect o origin dir).is_intersecting &&
          F.lt (rayIntersect o origin dir).distance L) = true
      · have hsplit := Bool.and_eq_true_iff.mp hg
        obtain ⟨q, heq, hq0, hq1⟩ := occluder_intensity
          (rayIntersect o origin dir).distance L
          (rayIntersect_distance_not_neg o origin dir) hsplit.2
        refine ⟨q, ?_, hq0, hq1⟩
        simp only [shadowLoop, hg, if_true]
        exact heq
      · have hg' : ((rayIntersect o origin dir).is_intersecting &&
            F.lt (rayIntersect o origin dir).distance L) = false :=
          Bool.eq_false_iff.mpr hg
        simp only [shadowLoop, hg', Bool.false_eq_true, if_false]
        refine ih ?_
        obtain ⟨c, hc, hcocc⟩ := h
        rcases List.mem_cons.mp hc with rfl | hmem
        · simp only [occludesB] at hcocc
          exact absurd hcocc (by rw [hg']; exact Bool.false_ne_true)
        · exact ⟨c, hmem, hcocc⟩


/-- C3: `cast_shadow` returns `0` when no object's hit distance along the
shadow ray compares strictly below the light distance; when the linear scan
meets a first occluder it returns `1 - min((d/L)^2, 1)` independently of the
objects after it; the result is always a rational in `[0, 1]`, and a
rational in `(0, 1]` whenever some occluder exists. -/
theorem castShadow_spec :
    (∀ (i : Intersect) (light : Light) (objects : List Cube),
      (∀ c ∈ objects, occludesB (shadowRayOrigin i light)
          (Vec3F.normalize (Vec3F.sub light.position i.point))
          (Vec3F.magnitude (Vec3F.sub light.position i.point)) c = false) →
      castShadow i light objects = 0) ∧
    (∀ (i : Intersect) (light : Light) (pre post : List Cube) (occ : Cube),
      (∀ c ∈ pre, occludesB (shadowRayOrigin i light)
          (Vec3F.normalize (Vec3F.sub light.position i.point))
          (Vec3F.magnitude (Vec3F.sub light.position i.point)) c = false) →
      occludesB (shadowRayOrigin i light)
          (Vec3F.normalize (Vec3F.sub light.position i.point))
          (Vec3F.magnitude (Vec3F.sub light.position i.point)) occ = true →
      castShadow i light (pre ++ occ :: post) =
        F.sub 1 (F.fmin (F.powf (F.div
          (rayIntersect occ (shadowRayOrigin i light)
            (Vec3F.normalize (Vec3F.sub light.position i.point))).distance
          (Vec3F.magnitude (Vec3F.sub light.position i.point))) 2) 1)) ∧
    (∀ (i : Intersect) (light : Light) (objects : List Cube),
      ∃ q : ℚ, castShadow i light objects = F.fin q ∧ 0 ≤ q ∧ q ≤ 1) ∧
    (∀ (i : Intersect) (light : Light) (objects : List Cube),
      (∃ c ∈ objects, occludesB (shadowRayOrigin i light)
          (Vec3F.normalize (Vec3F.sub light.position i.point))
          (Vec3F.magnitude (Vec3F.sub light.position i.point)) c = true) →
      ∃ q : ℚ, castShadow i light objects = F.fin q ∧ 0 < q ∧ q ≤ 1) := by
  refine ⟨?_, ?_, ?_, ?_⟩
  · intro i light objects h
    rw [castShadow_eq_shadowLoop]
    exact shadowLoop_no_occluder _ _ _ _ h
  · intro i light pre post occ hpre hocc
    rw [castShadow_eq_shadowLoop]
    exact shadowLoop_first_occluder pre post occ _ _ _ hpre hocc
  · intro i light objects
    rw [castShadow_eq_shadowLoop]
    exact shadowLoop_bounds _ _ _ _
  · intro i light objects h
    rw [castShadow_eq_shadowLoop]
    exact shadowLoop_pos _ _ _ _ h

/-- Probe intersection for the C3 witness: the top-face point of the unit
cube with its upward normal. -/
def shadowProbe : Intersect :=
  Intersect.new ⟨F.fin (mkRat 1 2), 1, F.fin (mkRat 1 2)⟩ ⟨0, 1, 0⟩ 4
    (Material.new (1, 0) 0 0 0 (Color.new 255 255 255) (Color.new 255 255 255))

/-- Light for the C3 witness: four units straight above the probe point. -/
def shadowLight : Light :=
  ⟨⟨F.fin (mkRat 1 2), 5, F.fin (mkRat 1 2)⟩, Color.new 255 255 255, 1⟩

/-- Occluder for the C3 witness: a cube hanging between the probe and the
light. -/
def occluderCube : Cube :=
  ⟨⟨0, 2, 0⟩, ⟨1, 3, 1⟩,
   Material.new (1, 0) 0 0 0 (Color.new 255 255 255) (Color.new 255 255 255),
   whiteTexture, whiteTexture, whiteTexture⟩

/-- Witness for C3: with no objects the shadow intensity is zero, and with
the hanging occluder the first-occluder formula applies. -/
theorem castShadow_spec_witness :
    castShadow shadowProbe shadowLight [] = 0 ∧
    castShadow shadowProbe shadowLight [occluderCube] =
      F.sub 1 (F.fmin (F.powf (F.div
        (rayIntersect occluderCube (shadowRayOrigin shadowProbe shadowLight)
          (Vec3F.normalize (Vec3F.sub shadowLight.position shadowProbe.point))).distance
        (Vec3F.magnitude (Vec3F.sub shadowLight.position shadowProbe.point))) 2) 1) :=
  ⟨castShadow_spec.1 shadowProbe shadowLight []
      (fun c hc => absurd hc (List.not_mem_nil c)),
   castShadow_spec.2.1 shadowProbe shadowLight [] [] occluderCube
      (fun c hc => absurd hc (List.not_mem_nil c)) (by decide)⟩

/-- C4: when the scene scan reports a hit, `cast_ray` returns the lit color
linearly interpolated toward the material's fresnel tint by the weight
`fresnel * reflectivity`, where `fresnel = f0 + (1 - f0) * (1 - cos_theta)^5`
with `cos_theta = max(0, dot(normal, view_dir))` and `f0` itself the
material's reflectivity — reflectivity enters twice, once as `f0` and once
as the final blend weight. -/
theorem castRay_fresnel_blend (o d : Vec3F) (objects skybox : List Cube)
    (lights : List Light) (camera : Camera) (is_night : Bool)
    (h : (scanPair objects o d).2.is_intersecting = true) :
    castRay o d objects skybox lights camera is_night =
      Color.lerp
        (calculateLighting (scanPair objects o d).2.point (scanPair objects o d).2.normal
          (Vec3F.normalize (Vec3F.sub camera.eye (scanPair objects o d).2.point))
          (scanPair objects o d).2.material.diffuse (scanPair objects o d).2.material.specular
          (scanPair objects o d).2.material.albedo lights objects)
        (scanPair objects o d).2.material.fresnel_color
        (F.mul
          (F.add (scanPair objects o d).2.material.reflectivity
            (F.mul (F.sub 1 (scanPair objects o d).2.material.reflectivity)
              (F.powi
                (F.sub 1
                  (F.fmax
                    (Vec3F.dot (scanPair objects o d).2.normal
                      (Vec3F.normalize (Vec3F.sub camera.eye (scanPair objects o d).2.point)))
                    0))
                5)))
          (scanPair objects o d).2.material.reflectivity) := by
  simp only [castRay, fresnelEffect, h, if_true]

/-- Witness for C4: the unit-cube scene hit by the C1 ray satisfies the
blend equation. -/
theorem castRay_fresnel_blend_witness :
    (scanPair [unitCube] ⟨F.fin (mkRat 1 2), F.fin (mkRat 1 2), 5⟩
      ⟨0, 0, -1⟩).2.is_intersecting = true ∧
    castRay ⟨F.fin (mkRat 1 2), F.fin (mkRat 1 2), 5⟩ ⟨0, 0, -1⟩ [unitCube] [] []
        ⟨⟨F.fin (mkRat 1 2), F.fin (mkRat 1 2), 5⟩⟩ false =
      Color.lerp
        (calculateLighting
          (scanPair [unitCube] ⟨F.fin (mkRat 1 2), F.fin (mkRat 1 2), 5⟩ ⟨0, 0, -1⟩).2.point
          (scanPair [unitCube] ⟨F.fin (mkRat 1 2), F.fin (mkRat 1 2), 5⟩ ⟨0, 0, -1⟩).2.normal
          (Vec3F.normalize (Vec3F.sub ⟨F.fin (mkRat 1 2), F.fin (mkRat 1 2), 5⟩
            (scanPair [unitCube] ⟨F.fin (mkRat 1 2), F.fin (mkRat 1 2), 5⟩ ⟨0, 0, -1⟩).2.point))
          (scanPair [unitCube] ⟨F.fin (mkRat 1 2), F.fin (mkRat 1 2), 5⟩ ⟨0, 0, -1⟩).2.material.diffuse
          (scanPair [unitCube] ⟨F.fin (mkRat 1 2), F.fin (mkRat 1 2), 5⟩ ⟨0, 0, -1⟩).2.material.specular
          (scanPair [unitCube] ⟨F.fin (mkRat 1 2), F.fin (mkRat 1 2), 5⟩ ⟨0, 0, -1⟩).2.material.albedo
          [] [unitCube])
        (scanPair [unitCube] ⟨F.fin (mkRat 1 2), F.fin (mkRat 1 2), 5⟩ ⟨0, 0, -1⟩).2.material.fresnel_color
        (F.mul
          (F.add
            (scanPair [unitCube] ⟨F.fin (mkRat 1 2), F.fin (mkRat 1 2), 5⟩ ⟨0, 0, -1⟩).2.material.reflectivity
            (F.mul
              (F.sub 1
                (scanPair [unitCube] ⟨F.fin (mkRat 1 2), F.fin (mkRat 1 2), 5⟩ ⟨0, 0, -1⟩).2.material.reflectivity)
              (F.powi
                (F.sub 1
                  (F.fmax
                    (Vec3F.dot
                      (scanPair [unitCube] ⟨F.fin (mkRat 1 2), F.fin (mkRat 1 2), 5⟩ ⟨0, 0, -1⟩).2.normal
                      (Vec3F.normalize (Vec3F.sub ⟨F.fin (mkRat 1 2), F.fin (mkRat 1 2), 5⟩
                        (scanPair [unitCube] ⟨F.fin (mkRat 1 2), F.fin (mkRat 1 2), 5⟩ ⟨0, 0, -1⟩).2.point)))
                    0))
                5)))
          (scanPair [unitCube] ⟨F.fin (mkRat 1 2), F.fin (mkRat 1 2), 5⟩ ⟨0, 0, -1⟩).2.material.reflectivity) :=
  ⟨by decide,
   castRay_fresnel_blend ⟨F.fin (mkRat 1 2), F.fin (mkRat 1 2), 5⟩ ⟨0, 0, -1⟩
     [unitCube] [] [] ⟨⟨F.fin (mkRat 1 2), F.fin (mkRat 1 2), 5⟩⟩ false (by decide)⟩

/-- The skybox fallback on an all-missing skybox list is the fixed day or
night background color. -/
theorem skyboxColor_all_miss (skybox : List Cube) (o d : Vec3F) (is_night : Bool)
    (h : ∀ c ∈ skybox, (rayIntersect c o d).is_intersecting = false) :
    skyboxColor skybox o d is_night =
      (if is_night then Color.new 10 10 30 else Color.new 63 96 188) := by
  induction skybox with
  | nil => rfl
  | cons c rest ih =>
      have hc := h c (List.mem_cons_self c rest)
      simp only [skyboxColor, hc, Bool.false_eq_true, if_false]
      exact ih fun x hx => h x (List.mem_cons_of_mem c hx)

/-- The skybox fallback returns the diffuse color of the first skybox cube
the ray hits. -/
theorem skyboxColor_first_hit (pre post : List Cube) (sc : Cube) (o d : Vec3F)
    (is_night : Bool)
    (hpre : ∀ c ∈ pre, (rayIntersect c o d).is_intersecting = false)
    (hsc : (rayIntersect sc o d).is_intersecting = true) :
    skyboxColor (pre ++ sc :: post) o d is_night =
      (rayIntersect sc o d).material.diffuse := by
  induction pre with
  | nil => simp only [List.nil_append, skyboxColor, hsc, if_true]
  | cons c rest ih =>
      have hc := hpre c (List.mem_cons_self c rest)
      simp only [List.cons_append, skyboxColor, hc, Bool.false_eq_true, if_false]
      exact ih fun x hx => hpre x (List.mem_cons_of_mem c hx)

/-- C8: when no scene object is hit, `cast_ray` scans the skybox in order
and returns the first hit's (texture-derived) diffuse color; when the skybox
misses too it returns the fixed day/night background; in every case the
result ignores the lights and the camera (the lighting computation is never
invoked). -/
theorem castRay_miss_skybox (o d : Vec3F) (objects skybox : List Cube)
    (lights : List Light) (camera : Camera) (is_night : Bool)
    (h : (scanPair objects o d).2.is_intersecting = false) :
    castRay o d objects skybox lights camera is_night = skyboxColor skybox o d is_night ∧
    (∀ (pre post : List Cube) (sc : Cube),
       skybox = pre ++ sc :: post →
       (∀ c ∈ pre, (rayIntersect c o d).is_intersecting = false) →
       (rayIntersect sc o d).is_intersecting = true →
       castRay o d objects skybox lights camera is_night =
         (rayIntersect sc o d).material.diffuse) ∧
    ((∀ c ∈ skybox, (rayIntersect c o d).is_intersecting = false) →
       castRay o d objects skybox lights camera is_night =
         (if is_night then Color.new 10 10 30 else Color.new 63 96 188)) ∧
    (∀ (lights' : List Light) (camera' : Camera),
       castRay o d objects skybox lights' camera' is_night =
         castRay o d objects skybox lights camera is_night) := by
  have hmain : castRay o d objects skybox lights camera is_night =
      skyboxColor skybox o d is_night := by
    simp only [castRay, h, Bool.false_eq_true, if_false]
  refine ⟨hmain, ?_, ?_, ?_⟩
  · intro pre post sc hsky hpre hsc
    rw [hmain, hsky]
    exact skyboxColor_first_hit pre post sc o d is_night hpre hsc
  · intro hmiss
    rw [hmain]
    exact skyboxColor_all_miss skybox o d is_night hmiss
  · intro lights' camera'
    rw [hmain]
    simp only [castRay, h, Bool.false_eq_true, if_false]

/-- Witness for C8: with an empty scene and the unit cube as skybox, the C1
ray returns the skybox cube's sampled diffuse color. -/
theorem castRay_miss_skybox_witness :
    castRay ⟨F.fin (mkRat 1 2), F.fin (mkRat 1 2), 5⟩ ⟨0, 0, -1⟩ [] [unitCube] []
        ⟨⟨0, 0, 0⟩⟩ false =
      (rayIntersect unitCube ⟨F.fin (mkRat 1 2), F.fin (mkRat 1 2), 5⟩
        ⟨0, 0, -1⟩).material.diffuse :=
  (castRay_miss_skybox ⟨F.fin (mkRat 1 2), F.fin (mkRat 1 2), 5⟩ ⟨0, 0, -1⟩ [] [unitCube]
      [] ⟨⟨0, 0, 0⟩⟩ false (by decide)).2.1 [] [] unitCube rfl
    (fun c hc => absurd hc (List.not_mem_nil c)) (by decide)

/-- Transitivity of the IEEE strict order (`NaN` never compares). -/
theorem F.lt_trans {x y z : F} (h1 : F.lt x y = true) (h2 : F.lt y z = true) :
    F.lt x z = true := by
  cases x <;> cases y <;> cases z <;> simp_all [F.lt]
  linarith

/-- Asymmetry of the IEEE strict order. -/
theorem F.lt_asymm {x y : F} (h : F.lt x y = true) : F.lt y x = false := by
  cases x <;> cases y <;> simp_all [F.lt]
  linarith

/-- Two distinct values both comparing strictly below a common bound are
themselves comparable (both are then `-inf` or finite, where the order is
total). -/
theorem F.lt_total_below {x y z : F} (hx : F.lt x z = true) (hy : F.lt y z = true)
    (hne : x ≠ y) : F.lt x y = true ∨ F.lt y x = true := by
  cases x <;> cases y <;> cases z <;> simp_all [F.lt]

/-- The nearest-hit scan step commutes for two cubes that do not both hit at
the same distance. -/
theorem scanStep_comm (o d : Vec3F) (s : F × Intersect) (a b : Cube)
    (hne : (rayIntersect a o d).is_intersecting = true →
           (rayIntersect b o d).is_intersecting = true →
           (rayIntersect a o d).distance ≠ (rayIntersect b o d).distance) :
    scanStep o d (scanStep o d s a) b = scanStep o d (scanStep o d s b) a := by
  by_cases ha : (rayIntersect a o d).is_intersecting = true
  case neg =>
    have ha' : (rayIntersect a o d).is_intersecting = false := Bool.eq_false_iff.mpr ha
    simp [scanStep, ha']
  by_cases hb : (rayIntersect b o d).is_intersecting = true
  case neg =>
    have hb' : (rayIntersect b o d).is_intersecting = false := Bool.eq_false_iff.mpr hb
    simp [scanStep, hb']
  have hstep_a : ∀ t : F × Intersect, scanStep o d t a =
      if F.lt (rayIntersect a o d).distance t.1 then
        ((rayIntersect a o d).distance, rayIntersect a o d) else t := by
    intro t
    simp [scanStep, ha]
  have hstep_b : ∀ t : F × Intersect, scanStep o d t b =
      if F.lt (rayIntersect b o d).distance t.1 then
        ((rayIntersect b o d).distance, rayIntersect b o d) else t := by
    intro t
    simp [scanStep, hb]
  have hd := hne ha hb
  rw [hstep_a s, hstep_b s]
  by_cases p : F.lt (rayIntersect a o d).distance s.1 = true
  · by_cases q : F.lt (rayIntersect b o d).distance s.1 = true
    · rcases F.lt_total_below p q hd with hab | hba
      · rw [if_pos p, if_pos q, hstep_b, hstep_a]
        simp only [if_pos hab]
        rw [if_neg (by rw [F.lt_asymm hab]; exact Bool.false_ne_true)]
      · rw [if_pos p, if_pos q, hstep_b, hstep_a]
        simp only [if_pos hba]
        rw [if_neg (by rw [F.lt_asymm hba]; exact Bool.false_ne_true)]
    · have hq' : F.lt (rayIntersect b o d).distance s.1 = false := Bool.eq_false_iff.mpr q
      rw [if_pos p, if_neg (by rw [hq']; exact Bool.false_ne_true), hstep_b, hstep_a]
      have hba : F.lt (rayIntersect b o d).distance (rayIntersect a o d).distance = false := by
        cases hcmp : F.lt (rayIntersect b o d).distance (rayIntersect a o d).distance
        · rfl
        · exact absurd (F.lt_trans hcmp p) (by rw [hq']; exact Bool.false_ne_true)
      rw [if_neg (by rw [hba]; exact Bool.false_ne_true), if_pos p]
  · have hp' : F.lt (rayIntersect a o d).distance s.1 = false := Bool.eq_false_iff.mpr p
    by_cases q : F.lt (rayIntersect b o d).distance s.1 = true
    · rw [if_neg (by rw [hp']; exact Bool.false_ne_true), if_pos q, hstep_b, hstep_a]
      have hab : F.lt (rayIntersect a o d).distance (rayIntersect b o d).distance = false := by
        cases hcmp : F.lt (rayIntersect a o d).distance (rayIntersect b o d).distance
        · rfl
        · exact absurd (F.lt_trans hcmp q) (by rw [hp']; exact Bool.false_ne_true)
      rw [if_pos q, if_neg (by rw [hab]; exact Bool.false_ne_true)]
    · have hq' : F.lt (rayIntersect b o d).distance s.1 = false := Bool.eq_false_iff.mpr q
      rw [if_neg (by rw [hp']; exact Bool.false_ne_true),
        if_neg (by rw [hq']; exact Bool.false_ne_true), hstep_b, hstep_a,
        if_neg (by rw [hq']; exact Bool.false_ne_true),
        if_neg (by rw [hp']; exact Bool.false_ne_true)]

/-- Amended C5: `cast_ray` selects the nearest hit by a strict comparison
against a running minimum initialised to `+inf` (first object wins ties),
and for every ray along which no two scene objects share the same hit
distance, the selected nearest hit is invariant under reordering of the
object list. -/
theorem scanPair_perm_invariant (o d : Vec3F) (l1 l2 : List Cube)
    (hp : l1.Perm l2)
    (hd : l1.Pairwise (fun a b =>
      (rayIntersect a o d).is_intersecting = true →
      (rayIntersect b o d).is_intersecting = true →
      (rayIntersect a o d).distance ≠ (rayIntersect b o d).distance)) :
    scanPair l1 o d = scanPair l2 o d := by
  have hsymm : Symmetric (fun a b : Cube =>
      (rayIntersect a o d).is_intersecting = true →
      (rayIntersect b o d).is_intersecting = true →
      (rayIntersect a o d).distance ≠ (rayIntersect b o d).distance) := by
    intro a b hab hb ha e
    exact hab ha hb e.symm
  unfold scanPair
  refine hp.foldl_eq' ?_ _
  intro x hx y hy z
  rcases eq_or_ne x y with rfl | hxy
  · rfl
  · exact scanStep_comm o d z x y (hd.forall hsymm hx hy hxy)

/-- Scene cube A for the C5 counterexample: the unit cube with a red
diffuse texture, full diffuse albedo, no specular weight, no reflectivity. -/
def sceneA : Cube :=
  ⟨⟨0, 0, 0⟩, ⟨1, 1, 1⟩,
   Material.new (1, 0) 2 0 0 (Color.new 255 0 0) (Color.new 255 255 255),
   (fun _ _ => Color.new 255 0 0), (fun _ _ => Color.new 255 0 0),
   (fun _ _ => Color.new 255 0 0)⟩

/-- Scene cube B for the C5 counterexample: a small block on the shadow ray
from A's hit point toward the light (but off the primary ray). -/
def sceneB : Cube :=
  ⟨⟨1, 0, F.fin (mkRat 17 10)⟩, ⟨F.fin (mkRat 6 5), 1, F.fin (mkRat 19 10)⟩,
   Material.new (1, 0) 2 0 0 (Color.new 255 0 0) (Color.new 255 255 255),
   (fun _ _ => Color.new 255 0 0), (fun _ _ => Color.new 255 0 0),
   (fun _ _ => Color.new 255 0 0)⟩

/-- Scene cube C for the C5 counterexample: a farther block on the same
shadow ray (also off the primary ray). -/
def sceneC : Cube :=
  ⟨⟨F.fin (mkRat 3 2), 0, F.fin (mkRat 5 2)⟩, ⟨F.fin (mkRat 9 5), 1, F.fin (mkRat 27 10)⟩,
   Material.new (1, 0) 2 0 0 (Color.new 255 0 0) (Color.new 255 255 255),
   (fun _ _ => Color.new 255 0 0), (fun _ _ => Color.new 255 0 0),
   (fun _ _ => Color.new 255 0 0)⟩

/-- Primary ray origin for the C5 counterexample. -/
def cexOrigin : Vec3F := ⟨F.fin (mkRat 1 2), F.fin (mkRat 1 2), 5⟩

/-- Primary ray direction for the C5 counterexample. -/
def cexDir : Vec3F := ⟨0, 0, -1⟩

/-- Light for the C5 counterexample: a 3-4-5 triangle away from A's hit
point, so both occluders B and C block it at different distances. -/
def cexLight : Light :=
  ⟨⟨F.fin (mkRat 7 2), F.fin (mkRat 1 2), 5⟩, Color.new 255 255 255, 1⟩

/-- Camera for the C5 counterexample, at the ray origin. -/
def cexCamera : Camera := ⟨⟨F.fin (mkRat 1 2), F.fin (mkRat 1 2), 5⟩⟩

/-- Witness for the amended C5: the concrete scene satisfies the
distinct-distance hypothesis and the nearest-hit scan agrees between the
two orders. -/
theorem scanPair_perm_invariant_witness :
    scanPair [sceneA, sceneB, sceneC] cexOrigin cexDir =
      scanPair [sceneA, sceneC, sceneB] cexOrigin cexDir :=
  scanPair_perm_invariant cexOrigin cexDir _ _
    (List.Perm.cons sceneA (List.Perm.swap sceneC sceneB []))
    (by decide)

/-- Counterexample to C5 as stated: the scene `[A, B, C]` has pairwise
distinct hit distances along the primary ray (only A hits it), the list
`[A, C, B]` is a reordering, and yet `cast_ray` returns different colors
for the two orders: the shadow scan inside the lighting computation stops
at the first occluder in list order, and B and C occlude the light at
different distances. -/
theorem castRay_reorder_counterexample :
    List.Perm [sceneA, sceneB, sceneC] [sceneA, sceneC, sceneB] ∧
    List.Pairwise (fun a b =>
      (rayIntersect a cexOrigin cexDir).is_intersecting = true →
      (rayIntersect b cexOrigin cexDir).is_intersecting = true →
      (rayIntersect a cexOrigin cexDir).distance ≠ (rayIntersect b cexOrigin cexDir).distance)
      [sceneA, sceneB, sceneC] ∧
    castRay cexOrigin cexDir [sceneA, sceneB, sceneC] [] [cexLight] cexCamera false ≠
      castRay cexOrigin cexDir [sceneA, sceneC, sceneB] [] [cexLight] cexCamera false :=
  ⟨List.Perm.cons sceneA (List.Perm.swap sceneC sceneB []), by decide, by decide⟩
